import Mathlib

/-!
Shallow embedding of the camera-control and rendering math of
`src/main.py` (class `OpenGLWidget`), together with theorems settling the
spec's claims about it.

Modelling conventions:
* Python floats are modelled exactly: scalars that only undergo rational
  arithmetic (`theta`, `phi`, `zoom`, mouse positions, wheel deltas,
  grid coordinates, the aspect ratio) live in `ℚ`; quantities that pass
  through trigonometric functions (`pan_offset`, the pan basis vectors,
  the eye position) live in `ℝ`.
* Qt's `event.position()` is a 2-D point, modelled as `ℚ × ℚ`; Qt's
  `event.angleDelta().y()` is an `int`, modelled as `ℤ`.
* `event.buttons()` is compared for exact equality against `Qt.LeftButton`
  and `Qt.RightButton`; every other value falls through both branches,
  so the button state is modelled by a three-valued type.
* `self.last_mouse_pos` is `Optional[QPointF]`, modelled as
  `Option (ℚ × ℚ)`.  The guard `if self.last_mouse_pos:` tests Python
  truthiness, and PySide6's `QPointF` carries shiboken's isNull-based
  `__bool__` (`bool(p)` is `not p.isNull()`, and `QPointF(0, 0).isNull()`
  holds), so the guard is false when the anchor is `None` or when it is
  exactly the point `(0, 0)`; the model tests `some last` with
  `last ≠ (0, 0)`.
-/

/-- Mouse button state as tested by `mouseMoveEvent`: exactly the left
button, exactly the right button, or anything else. -/
inductive MouseButtons where
  | left
  | right
  | other
deriving DecidableEq

/-- The mutable camera state held by `OpenGLWidget`: drag anchor
`last_mouse_pos`, orbit angles `theta` and `phi` (degrees), camera
distance `zoom`, pan offset `pan_offset` (a 3-vector `[X, Y, Z]`), and
the (never written) `hovered_face` index. -/
structure CameraState where
  last_mouse_pos : Option (ℚ × ℚ)
  theta : ℚ
  phi : ℚ
  zoom : ℚ
  pan_offset : ℝ × ℝ × ℝ
  hovered_face : Option ℕ

/-- The state built by `OpenGLWidget.__init__`: no anchor, `theta = 45`,
`phi = 45`, `zoom = 5`, `pan_offset = (0, 0, 0)`, no hovered face. -/
def initState : CameraState :=
  { last_mouse_pos := none
    theta := 45
    phi := 45
    zoom := 5
    pan_offset := (0, 0, 0)
    hovered_face := none }

/-- `np.radians`: degrees to radians. -/
noncomputable def radians (x : ℝ) : ℝ := x * (Real.pi / 180)

/-- Componentwise sum of two 3-vectors (numpy array addition). -/
noncomputable def add3 (a b : ℝ × ℝ × ℝ) : ℝ × ℝ × ℝ :=
  (a.1 + b.1, a.2.1 + b.2.1, a.2.2 + b.2.2)

/-- Scalar multiple of a 3-vector (numpy array-by-scalar product). -/
noncomputable def smul3 (c : ℝ) (a : ℝ × ℝ × ℝ) : ℝ × ℝ × ℝ :=
  (c * a.1, c * a.2.1, c * a.2.2)

/-- `np.cross` of two 3-vectors. -/
noncomputable def cross3 (a b : ℝ × ℝ × ℝ) : ℝ × ℝ × ℝ :=
  (a.2.1 * b.2.2 - a.2.2 * b.2.1,
   a.2.2 * b.1 - a.1 * b.2.2,
   a.1 * b.2.1 - a.2.1 * b.1)

/-- The `forward` vector computed in the right-button branch of
`mouseMoveEvent` (src/main.py lines 155-159). -/
noncomputable def forwardVec (theta phi : ℝ) : ℝ × ℝ × ℝ :=
  (-(Real.sin (radians phi) * Real.cos (radians theta)),
   -(Real.sin (radians phi) * Real.sin (radians theta)),
   Real.cos (radians phi))

/-- The `right` vector computed in the right-button branch of
`mouseMoveEvent` (src/main.py lines 160-164). -/
noncomputable def rightVec (theta : ℝ) : ℝ × ℝ × ℝ :=
  (Real.sin (radians theta), -Real.cos (radians theta), 0)

/-- The eye offset `(eye_x, eye_y, eye_z)` computed in `paintGL`
(src/main.py lines 43-45): `zoom * (sin phi * cos theta,
sin phi * sin theta, cos phi)` with the angles in radians. -/
noncomputable def eyeVec (theta phi zoom : ℝ) : ℝ × ℝ × ℝ :=
  (zoom * Real.sin (radians phi) * Real.cos (radians theta),
   zoom * Real.sin (radians phi) * Real.sin (radians theta),
   zoom * Real.cos (radians phi))

/-- `OpenGLWidget.mousePressEvent`: record the event position as the
drag anchor. -/
def mousePressEvent (s : CameraState) (pos : ℚ × ℚ) : CameraState :=
  { s with last_mouse_pos := some pos }

/-- `OpenGLWidget.mouseMoveEvent`: if the anchor `last_mouse_pos` is
truthy — present and, since `bool(QPointF)` is `not isNull()`, different
from the point `(0, 0)` — compute the delta from it; the left button
orbits (`theta -= dx*0.5`, `phi -= dy*0.5` clamped to `[1, 179]`), the
right button pans `pan_offset` along the camera-relative `right` and
`up = right × forward` directions, any other button changes nothing;
finally the anchor is updated to the event position.  With a falsy
anchor (`None`, or exactly `(0, 0)`) the event is ignored. -/
noncomputable def mouseMoveEvent (s : CameraState) (pos : ℚ × ℚ) (buttons : MouseButtons) :
    CameraState :=
  match s.last_mouse_pos with
  | none => s
  | some last =>
    if last = (0, 0) then s else
    let delta : ℚ × ℚ := (pos.1 - last.1, pos.2 - last.2)
    let s1 : CameraState :=
      match buttons with
      | .left =>
        let theta := s.theta - delta.1 * 0.5
        let phi := s.phi - delta.2 * 0.5
        { s with theta := theta, phi := max 1 (min 179 phi) }
      | .right =>
        let forward := forwardVec (s.theta : ℝ) (s.phi : ℝ)
        let right := rightVec (s.theta : ℝ)
        let up := cross3 right forward
        let pan1 := add3 s.pan_offset (smul3 ((delta.1 : ℝ) * 0.01) right)
        let pan2 := add3 pan1 (smul3 (-(delta.2 : ℝ) * 0.01) up)
        { s with pan_offset := pan2 }
      | .other => s
    { s1 with last_mouse_pos := some pos }

/-- `OpenGLWidget.mouseReleaseEvent`: clear the drag anchor. -/
def mouseReleaseEvent (s : CameraState) : CameraState :=
  { s with last_mouse_pos := none }

/-- `OpenGLWidget.wheelEvent`: `zoom -= delta * 0.01`, then clamp to
`[2, 20]`. -/
def wheelEvent (s : CameraState) (delta : ℤ) : CameraState :=
  let zoom := s.zoom - (delta : ℚ) * 0.01
  { s with zoom := max 2 (min 20 zoom) }

/-- The aspect ratio computed by `OpenGLWidget.resizeGL` and fed to
`glFrustum`: `w / h` if `h ≠ 0`, else `1.0`. -/
def resizeGL (w h : ℤ) : ℚ :=
  if h ≠ 0 then (w : ℚ) / (h : ℚ) else 1.0

/-- The four vertices of `draw_grid`'s loop body for index `i`: a line
parallel to the Z-axis at `x = i*step` and a line parallel to the X-axis
at `z = i*step`, all with `y = 0`. -/
def gridLineVertices (size : ℤ) (step : ℚ) (i : ℤ) : List (ℚ × ℚ × ℚ) :=
  [((i : ℚ) * step, 0, -(size : ℚ) * step),
   ((i : ℚ) * step, 0, (size : ℚ) * step),
   (-(size : ℚ) * step, 0, (i : ℚ) * step),
   ((size : ℚ) * step, 0, (i : ℚ) * step)]

/-- The index sequence of `draw_grid`'s loop: `range(-size, size + 1)`. -/
def gridRange (size : ℤ) : List ℤ :=
  (List.range (2 * size + 1).toNat).map (fun (k : ℕ) => (k : ℤ) - size)

/-- The vertex stream emitted by `OpenGLWidget.draw_grid(size, step)`:
the loop body for each `i` in `range(-size, size + 1)`. -/
def draw_grid (size : ℤ) (step : ℚ) : List (ℚ × ℚ × ℚ) :=
  (gridRange size).flatMap (gridLineVertices size step)

/-- The states reached after each successive left-button `mouseMoveEvent`
at the given positions. -/
noncomputable def dragTrace (s : CameraState) : List (ℚ × ℚ) → List CameraState
  | [] => []
  | p :: ps =>
    let s1 := mouseMoveEvent s p .left
    s1 :: dragTrace s1 ps

/-- The states reached after each successive `wheelEvent` with the given
deltas. -/
def wheelTrace (s : CameraState) : List ℤ → List CameraState
  | [] => []
  | d :: ds =>
    let s1 := wheelEvent s d
    s1 :: wheelTrace s1 ds

/-- Any single `mouseMoveEvent` keeps `phi` inside `[1, 179]` whenever it
started there: the left-button branch clamps, the other branches leave
`phi` untouched. -/
lemma mouseMoveEvent_phi_mem (s : CameraState) (p : ℚ × ℚ) (b : MouseButtons)
    (h : 1 ≤ s.phi ∧ s.phi ≤ 179) :
    1 ≤ (mouseMoveEvent s p b).phi ∧ (mouseMoveEvent s p b).phi ≤ 179 := by
  cases hsl : s.last_mouse_pos with
  | none =>
    simp only [mouseMoveEvent, hsl]
    exact h
  | some last =>
    by_cases hl : last = (0, 0)
    · simp only [mouseMoveEvent, hsl, if_pos hl]
      exact h
    · simp only [mouseMoveEvent, hsl, if_neg hl]
      cases b with
      | left =>
        refine ⟨le_max_left 1 _, max_le (by norm_num) ?_⟩
        exact le_trans (min_le_left _ _) (by norm_num)
      | right => exact h
      | other => exact h

/-- Every state along a left-button drag trace has `phi ∈ [1, 179]`,
provided the starting state does. -/
lemma dragTrace_phi_mem (ps : List (ℚ × ℚ)) (s : CameraState)
    (h : 1 ≤ s.phi ∧ s.phi ≤ 179) :
    (dragTrace s ps).Forall (fun t => 1 ≤ t.phi ∧ t.phi ≤ 179) := by
  induction ps generalizing s with
  | nil => trivial
  | cons p ps ih =>
    rw [dragTrace, List.forall_cons]
    exact ⟨mouseMoveEvent_phi_mem s p .left h,
           ih _ (mouseMoveEvent_phi_mem s p .left h)⟩

/-- C1: starting from the initial state (`phi = 45`) and pressing the
mouse anywhere to set the drag anchor, every sequence of left-button
`mouseMoveEvent` calls keeps `phi` within `[1, 179]` after every call. -/
theorem C1_phi_clamped_along_drags (p0 : ℚ × ℚ) (ps : List (ℚ × ℚ)) :
    (dragTrace (mousePressEvent initState p0) ps).Forall
      (fun t => 1 ≤ t.phi ∧ t.phi ≤ 179) :=
  dragTrace_phi_mem ps _ (by norm_num [mousePressEvent, initState])

/-- Any single `wheelEvent` lands `zoom` inside `[2, 20]`. -/
lemma wheelEvent_zoom_mem (s : CameraState) (d : ℤ) :
    2 ≤ (wheelEvent s d).zoom ∧ (wheelEvent s d).zoom ≤ 20 := by
  unfold wheelEvent
  refine ⟨le_max_left 2 _, max_le (by norm_num) ?_⟩
  exact le_trans (min_le_left _ _) (by norm_num)

/-- Every state along a wheel trace has `zoom ∈ [2, 20]`. -/
lemma wheelTrace_zoom_mem (ds : List ℤ) (s : CameraState) :
    (wheelTrace s ds).Forall (fun t => 2 ≤ t.zoom ∧ t.zoom ≤ 20) := by
  induction ds generalizing s with
  | nil => trivial
  | cons d ds ih =>
    rw [wheelTrace, List.forall_cons]
    exact ⟨wheelEvent_zoom_mem s d, ih _⟩

/-- C2: starting from the initial state (`zoom = 5`), every sequence of
`wheelEvent` calls keeps the camera distance within `[2, 20]` after
every call. -/
theorem C2_zoom_clamped_along_wheels (ds : List ℤ) :
    (wheelTrace initState ds).Forall (fun t => 2 ≤ t.zoom ∧ t.zoom ≤ 20) :=
  wheelTrace_zoom_mem ds initState

/-- C3: for every state and wheel delta `d`, `wheelEvent` sets the
distance to `clamp (zoom - d * 0.01) [2, 20]`; from the initial distance
`5`, a delta of `-100` yields `6` and a delta of `10000` clamps to `2`. -/
theorem C3_wheelEvent_formula :
    (∀ (s : CameraState) (d : ℤ),
        (wheelEvent s d).zoom = max 2 (min 20 (s.zoom - (d : ℚ) * 0.01))) ∧
      (wheelEvent initState (-100)).zoom = 6 ∧
      (wheelEvent initState 10000).zoom = 2 := by
  refine ⟨fun s d => rfl, ?_, ?_⟩ <;> norm_num [wheelEvent, initState]

/-- C4: a `mouseMoveEvent` that arrives while no drag anchor is set (no
press yet, or the anchor was cleared by a release) leaves the whole
state unchanged, whatever the position and buttons. -/
theorem C4_drag_without_anchor_noop (s : CameraState) (p : ℚ × ℚ)
    (b : MouseButtons) (h : s.last_mouse_pos = none) :
    mouseMoveEvent s p b = s := by
  unfold mouseMoveEvent
  rw [h]

/-- Witness for C4: the initial state has no anchor, and so does the
state after a press followed by a release; a move event leaves both
unchanged. -/
theorem C4_drag_without_anchor_noop_witness :
    mouseMoveEvent initState (3, 7) .left = initState ∧
      mouseMoveEvent (mouseReleaseEvent (mousePressEvent initState (1, 2)))
          (3, 7) .right =
        mouseReleaseEvent (mousePressEvent initState (1, 2)) :=
  ⟨C4_drag_without_anchor_noop initState (3, 7) .left rfl,
   C4_drag_without_anchor_noop _ (3, 7) .right rfl⟩

/-- C5: the claimed scenario fails on the code.  Pressing at `(0, 0)`
stores the anchor `QPointF(0, 0)`, which is falsy (`bool(QPointF)` is
`not isNull()`), so the guard `if self.last_mouse_pos:` skips the whole
drag block: the left-button move to `(10, 0)` changes nothing and
`theta` stays `45`, not `40` as the claim (and the spec's clearly
intended anchor-presence semantics) says. -/
theorem C5_press_at_origin_drag_noop :
    mouseMoveEvent (mousePressEvent initState (0, 0)) (10, 0) .left =
        mousePressEvent initState (0, 0) ∧
      (mouseMoveEvent (mousePressEvent initState (0, 0)) (10, 0) .left).theta = 45 ∧
      (45 : ℚ) ≠ 40 := by
  refine ⟨?_, ?_, by norm_num⟩
  · simp [mouseMoveEvent, mousePressEvent]
  · norm_num [mouseMoveEvent, mousePressEvent, initState]

/-- C6 fails as stated: from the default state with the anchor pressed at
`(1, 1)` (a truthy anchor), dragging with delta `(0, 200)` and then delta
`(0, -200)` gives `phi = 101` (the first drag was clamped at `1`), while
the single drag with the summed delta `(0, 0)` leaves `phi = 45`. -/
theorem C6_counterexample :
    (mouseMoveEvent (mouseMoveEvent (mousePressEvent initState (1, 1)) (1, 201) .left)
          (1, 1) .left).phi ≠
      (mouseMoveEvent (mousePressEvent initState (1, 1)) (1, 1) .left).phi := by
  norm_num [mouseMoveEvent, mousePressEvent, initState, Prod.ext_iff]

/-- C6 (amended): provided the anchor and the intermediate pointer
position are both truthy (not the falsy point `(0, 0)`, which would make
the program skip the drag), two consecutive left-button drags with
deltas `d1` then `d2` give the same `theta` as the single drag with
delta `d1 + d2`, and the same `phi` provided additionally the first
drag's `phi` update does not hit the `[1, 179]` clamp. -/
theorem C6_amended_drag_composition (s : CameraState) (a d1 d2 : ℚ × ℚ)
    (h : s.last_mouse_pos = some a) (ha : a ≠ (0, 0))
    (hp1 : ((a.1 + d1.1, a.2 + d1.2) : ℚ × ℚ) ≠ (0, 0)) :
    (mouseMoveEvent (mouseMoveEvent s (a.1 + d1.1, a.2 + d1.2) .left)
          (a.1 + d1.1 + d2.1, a.2 + d1.2 + d2.2) .left).theta =
        (mouseMoveEvent s (a.1 + d1.1 + d2.1, a.2 + d1.2 + d2.2) .left).theta ∧
      (1 ≤ s.phi - d1.2 * 0.5 → s.phi - d1.2 * 0.5 ≤ 179 →
        (mouseMoveEvent (mouseMoveEvent s (a.1 + d1.1, a.2 + d1.2) .left)
            (a.1 + d1.1 + d2.1, a.2 + d1.2 + d2.2) .left).phi =
          (mouseMoveEvent s (a.1 + d1.1 + d2.1, a.2 + d1.2 + d2.2) .left).phi) := by
  simp only [mouseMoveEvent, h, if_neg ha, if_neg hp1]
  have e1 : a.2 + d1.2 - a.2 = d1.2 := by ring
  have e3 : a.1 + d1.1 + d2.1 - (a.1 + d1.1) = d2.1 := by ring
  have e4 : a.2 + d1.2 + d2.2 - (a.2 + d1.2) = d2.2 := by ring
  constructor
  · ring
  · intro h1 h2
    rw [e1, e4]
    rw [min_eq_right h2, max_eq_right h1]
    have e7 : s.phi - d1.2 * 0.5 - d2.2 * 0.5 = s.phi - (a.2 + d1.2 + d2.2 - a.2) * 0.5 := by
      ring
    rw [e7]

/-- Witness for C6 (amended): from the default state pressed at `(1, 1)`,
deltas `(2, 0)` then `(6, 8)` compose to the single delta `(8, 8)` for
both `theta` and `phi`. -/
theorem C6_amended_drag_composition_witness :
    (mouseMoveEvent (mouseMoveEvent (mousePressEvent initState (1, 1)) (1 + 2, 1 + 0) .left)
          (1 + 2 + 6, 1 + 0 + 8) .left).theta =
        (mouseMoveEvent (mousePressEvent initState (1, 1)) (1 + 2 + 6, 1 + 0 + 8) .left).theta ∧
      (mouseMoveEvent (mouseMoveEvent (mousePressEvent initState (1, 1)) (1 + 2, 1 + 0) .left)
          (1 + 2 + 6, 1 + 0 + 8) .left).phi =
        (mouseMoveEvent (mousePressEvent initState (1, 1)) (1 + 2 + 6, 1 + 0 + 8) .left).phi := by
  have h := C6_amended_drag_composition (mousePressEvent initState (1, 1)) (1, 1) (2, 0) (6, 8)
    rfl (by norm_num [Prod.ext_iff]) (by norm_num [Prod.ext_iff])
  exact ⟨h.1, h.2 (by norm_num [mousePressEvent, initState])
    (by norm_num [mousePressEvent, initState])⟩

/-- C7: the aspect ratio fed to `glFrustum` is `w / h` whenever `h ≠ 0`
and exactly `1` when `h = 0`; a zero width with a nonzero height gives
aspect ratio `0`, not the fallback `1`. -/
theorem C7_resizeGL_aspect (w h : ℤ) :
    (h ≠ 0 → resizeGL w h = (w : ℚ) / (h : ℚ)) ∧
      (h = 0 → resizeGL w h = 1) ∧
      (w = 0 ∧ h ≠ 0 → resizeGL w h = 0) := by
  refine ⟨fun hh => ?_, fun hh => ?_, fun hwh => ?_⟩
  · simp [resizeGL, hh]
  · norm_num [resizeGL, hh]
  · simp [resizeGL, hwh.1, hwh.2]

/-- Witness for C7: `resize(800, 600)` gives `800 / 600`, `resize(800, 0)`
falls back to `1`, and `resize(0, 600)` gives `0`. -/
theorem C7_resizeGL_aspect_witness :
    resizeGL 800 600 = ((800 : ℤ) : ℚ) / ((600 : ℤ) : ℚ) ∧
      resizeGL 800 0 = 1 ∧ resizeGL 0 600 = 0 :=
  ⟨(C7_resizeGL_aspect 800 600).1 (by decide), (C7_resizeGL_aspect 800 0).2.1 rfl,
   (C7_resizeGL_aspect 0 600).2.2 ⟨rfl, by decide⟩⟩

/-- C10: a `wheelEvent` changes only `zoom`: `theta`, `phi`,
`pan_offset`, the drag anchor and the hovered face are untouched. -/
theorem C10_wheelEvent_only_zoom (s : CameraState) (d : ℤ) :
    (wheelEvent s d).theta = s.theta ∧ (wheelEvent s d).phi = s.phi ∧
      (wheelEvent s d).pan_offset = s.pan_offset ∧
      (wheelEvent s d).last_mouse_pos = s.last_mouse_pos ∧
      (wheelEvent s d).hovered_face = s.hovered_face :=
  ⟨rfl, rfl, rfl, rfl, rfl⟩

/-- Membership in the index sequence of the grid loop: for `size ≥ 0`,
`range(-size, size + 1)` contains exactly the integers in
`[-size, size]`. -/
lemma mem_gridRange (size i : ℤ) (h0 : 0 ≤ size) :
    i ∈ gridRange size ↔ -size ≤ i ∧ i ≤ size := by
  unfold gridRange
  simp only [List.mem_map, List.mem_range]
  constructor
  · rintro ⟨k, hk, rfl⟩
    omega
  · intro hi
    exact ⟨(i + size).toNat, by omega, by omega⟩

/-- C9 fails as stated: not every grid vertex has Z coordinate `0` (the
vertex `(-10, 0, -10)` is in the stream). -/
theorem C9_counterexample :
    ¬ (draw_grid 10 1).Forall (fun v => v.2.2 = 0) := by
  intro hAll
  rw [List.forall_iff_forall_mem] at hAll
  have hmem : ((-10 : ℚ), (0 : ℚ), (-10 : ℚ)) ∈ draw_grid 10 1 := by
    unfold draw_grid
    refine List.mem_flatMap.2 ⟨-10, ?_, ?_⟩
    · exact (mem_gridRange 10 (-10) (by norm_num)).2 (by norm_num)
    · norm_num [gridLineVertices]
  have hz := hAll _ hmem
  norm_num at hz

/-- C9 (amended): every vertex emitted by `draw_grid(10, 1)` has Y
coordinate `0` (the grid lies in the XZ plane, not in the plane where
the world-up Z axis is zero) with X and Z within `[-10, 10]`; and for
every loop index `i` in `range(-10, 11)` the stream contains the
endpoints of the line `x = i` (parallel to Z) and of the line `z = i`
(parallel to X), so the grid spans `±10` in unit steps in X and Z. -/
theorem C9_amended_grid_plane :
    (draw_grid 10 1).Forall
        (fun v => v.2.1 = 0 ∧ -10 ≤ v.1 ∧ v.1 ≤ 10 ∧ -10 ≤ v.2.2 ∧ v.2.2 ≤ 10) ∧
      (gridRange 10).Forall (fun (i : ℤ) =>
        ((i : ℚ), 0, -10) ∈ draw_grid 10 1 ∧ ((i : ℚ), 0, 10) ∈ draw_grid 10 1 ∧
          ((-10 : ℚ), 0, (i : ℚ)) ∈ draw_grid 10 1 ∧
          ((10 : ℚ), 0, (i : ℚ)) ∈ draw_grid 10 1) := by
  constructor
  · rw [List.forall_iff_forall_mem]
    intro v hv
    obtain ⟨i, hi, hvmem⟩ := List.mem_flatMap.1 hv
    obtain ⟨h1, h2⟩ := (mem_gridRange 10 i (by norm_num)).1 hi
    have hq1 : (-10 : ℚ) ≤ (i : ℚ) := by exact_mod_cast h1
    have hq2 : ((i : ℚ)) ≤ 10 := by exact_mod_cast h2
    simp only [gridLineVertices, List.mem_cons, List.not_mem_nil, or_false] at hvmem
    rcases hvmem with rfl | rfl | rfl | rfl
    · exact ⟨rfl, by simpa using hq1, by simpa using hq2, by norm_num, by norm_num⟩
    · exact ⟨rfl, by simpa using hq1, by simpa using hq2, by norm_num, by norm_num⟩
    · exact ⟨rfl, by norm_num, by norm_num, by simpa using hq1, by simpa using hq2⟩
    · exact ⟨rfl, by norm_num, by norm_num, by simpa using hq1, by simpa using hq2⟩
  · rw [List.forall_iff_forall_mem]
    intro i hi
    refine ⟨List.mem_flatMap.2 ⟨i, hi, ?_⟩, List.mem_flatMap.2 ⟨i, hi, ?_⟩,
      List.mem_flatMap.2 ⟨i, hi, ?_⟩, List.mem_flatMap.2 ⟨i, hi, ?_⟩⟩ <;>
      norm_num [gridLineVertices]

/-- The unit direction from the eye position toward the target, as the
spec describes `forward`.  The eye sits at
`target + distance * (sin phi * cos theta, sin phi * sin theta, cos phi)`
(angles in radians), so `target - eye` is `-distance` times the vector
`(sin phi * cos theta, sin phi * sin theta, cos phi)`, which already has
unit length; the unit direction toward the target is its negation. -/
noncomputable def specUnitDirToTarget (theta phi : ℝ) : ℝ × ℝ × ℝ :=
  (-(Real.sin (radians phi) * Real.cos (radians theta)),
   -(Real.sin (radians phi) * Real.sin (radians theta)),
   -(Real.cos (radians phi)))

/-- C8 fails as stated: at `theta = 0`, `phi = 60` the code's `forward`
vector has Z component `cos 60° = 1/2`, while the unit direction from
the eye toward the target has Z component `-1/2`. -/
theorem C8_counterexample : forwardVec 0 60 ≠ specUnitDirToTarget 0 60 := by
  intro hEq
  have hz := congrArg (fun v : ℝ × ℝ × ℝ => v.2.2) hEq
  have h60 : radians 60 = Real.pi / 3 := by
    unfold radians
    ring
  simp only [forwardVec, specUnitDirToTarget, h60, Real.cos_pi_div_three] at hz
  norm_num at hz

/-- C8 (amended): the code's `forward` vector agrees with the unit
direction from the eye toward the target in X and Y but has the opposite
Z component; the direction `specUnitDirToTarget` is indeed the
normalized vector from the eye to the target: it has unit length and
`eyeVec = eye - target = -distance • specUnitDirToTarget`. -/
theorem C8_amended_forward_vs_unit_dir (theta phi d : ℝ) :
    (forwardVec theta phi).1 = (specUnitDirToTarget theta phi).1 ∧
      (forwardVec theta phi).2.1 = (specUnitDirToTarget theta phi).2.1 ∧
      (forwardVec theta phi).2.2 = -(specUnitDirToTarget theta phi).2.2 ∧
      (specUnitDirToTarget theta phi).1 ^ 2 + (specUnitDirToTarget theta phi).2.1 ^ 2 +
          (specUnitDirToTarget theta phi).2.2 ^ 2 = 1 ∧
      eyeVec theta phi d = smul3 (-d) (specUnitDirToTarget theta phi) := by
  refine ⟨rfl, rfl, by simp [forwardVec, specUnitDirToTarget], ?_, ?_⟩
  · have h1 := Real.sin_sq_add_cos_sq (radians theta)
    have h2 := Real.sin_sq_add_cos_sq (radians phi)
    simp only [specUnitDirToTarget]
    linear_combination (Real.sin (radians phi)) ^ 2 * h1 + h2
  · simp only [eyeVec, smul3, specUnitDirToTarget, Prod.mk.injEq]
    refine ⟨by ring, by ring, by ring⟩
